import Mathlib

/-!
Shallow embedding of the 2D bonded-discrete-element fracture simulation
(`src/main.rs`).  Machine `f64` arithmetic is modelled by exact real
arithmetic; vectors (`DVec2`) are pairs of reals.  The per-frame physics
loop of `main` is decomposed into the drift pass, the per-particle contact
and bond passes and the kick pass, composed exactly in the order the source
executes them (note that in the source the kick loop over all particles is
nested *inside* the per-particle force loop).
-/

open scoped Classical

noncomputable section

/-- 2D vector, modelling `DVec2`. -/
abbrev Vec2 : Type := ℝ × ℝ

/-- Euclidean length of a vector, modelling `DVec2::length`. -/
def vlen (v : Vec2) : ℝ := Real.sqrt (v.1 ^ 2 + v.2 ^ 2)

/-- Dot product, modelling `DVec2::dot`. -/
def vdot (v w : Vec2) : ℝ := v.1 * w.1 + v.2 * w.2

/-- Normalization, modelling `DVec2::normalize` (division by the length). -/
def vnormalize (v : Vec2) : Vec2 := (v.1 / vlen v, v.2 / vlen v)

/-- The +90° perpendicular `DVec2::new(-n.y, n.x)` used for the tangent. -/
def vperp (v : Vec2) : Vec2 := (-v.2, v.1)

/-- Model of `f64::atan2`: the argument of the complex number `x + y·i`. -/
def atan2 (y x : ℝ) : ℝ := Complex.arg ⟨x, y⟩

/-- Model of `f64::rem_euclid` for a positive modulus. -/
def rem_euclid (x y : ℝ) : ℝ := x - y * ⌊x / y⌋

/-- `clamp_angle` from the source: `(a + PI).rem_euclid(2.0 * PI) - PI`. -/
def clamp_angle (a : ℝ) : ℝ := rem_euclid (a + Real.pi) (2 * Real.pi) - Real.pi

/-- A bond record, as in `struct Bond`. -/
@[ext]
structure Bond where
  broken : Bool
  endpoint : ℕ
  length : ℝ
  direction : Vec2
  max_normal_force : ℝ
  max_tangent_force : ℝ
  deriving Inhabited

/-- `Bond::new`: a fresh bond starts with `broken = false`. -/
def Bond.new (j : ℕ) (l : ℝ) (d : Vec2) (tn tt : ℝ) : Bond :=
  { broken := false, endpoint := j, length := l, direction := d,
    max_normal_force := tn, max_tangent_force := tt }

/-- A particle record, as in `struct Particle` (the render color is dropped). -/
@[ext]
structure Particle where
  bonds : List Bond
  inverse_mass : ℝ
  inverse_moment : ℝ
  radius : ℝ
  angle : ℝ
  angvel : ℝ
  angvel_mid : ℝ
  torque : ℝ
  position : Vec2
  velocity : Vec2
  velocity_mid : Vec2
  force : Vec2
  deriving Inhabited

/-- `Particle::new im ii r x`. -/
def Particle.new (im ii r : ℝ) (x : Vec2) : Particle :=
  { bonds := [], inverse_mass := im, inverse_moment := ii, radius := r,
    angle := 0, angvel := 0, angvel_mid := 0, torque := 0,
    position := x, velocity := 0, velocity_mid := 0, force := 0 }

/-- The drift pass body (source lines 158-164): clear the accumulators and
advance position and angle from the mid-step velocities. -/
def driftParticle (dt : ℝ) (p : Particle) : Particle :=
  { p with
    force := 0
    torque := 0
    position := p.position + dt • p.velocity_mid
    angle := clamp_angle (p.angle + p.angvel_mid * dt) }

/-- The contact force the inner `j` loop adds to particle `i`'s accumulator
for one neighbour (source lines 173-181): zero when the overlap is below
`1e-12`, otherwise the damped penalty force along the center line. -/
def contactForceOn (kn : ℝ) (pi pj : Particle) : Vec2 :=
  let lij := pi.position - pj.position
  let o := pi.radius + pj.radius - vlen lij
  if o < 1e-12 then 0
  else
    let n := vnormalize lij
    let a := 1.4 * Real.sqrt (kn / (pi.inverse_mass + pj.inverse_mass))
    (kn * o + a * vdot (pj.velocity - pi.velocity) n) • n

/-- The contact pass for owner `i` (source lines 169-182): fold the
contact contributions of every `j ≠ i` into `force_i`. -/
def contactStep (kn : ℝ) (pts : List Particle) (i : ℕ) : List Particle :=
  match pts[i]? with
  | none => pts
  | some p =>
    let f := (List.range pts.length).foldl
      (fun acc j => if j = i then acc else acc + contactForceOn kn p (pts.getD j default))
      p.force
    pts.set i { p with force := f }

/-- Evaluation of one bond owned by `p` (source lines 184-207): returns the
updated bond together with the force and torque it contributes. A broken
bond is skipped; a bond that trips the breaking test is marked broken and
contributes nothing. -/
def evalBond (kn r : ℝ) (pts : List Particle) (p : Particle) (b : Bond) :
    Bond × Vec2 × ℝ :=
  if b.broken then (b, 0, 0)
  else
    let pj := pts.getD b.endpoint default
    let l := pj.position - p.position
    let n := vnormalize l
    let t := vperp n
    let dl := vlen l - b.length
    let qb := atan2 b.direction.2 b.direction.1 - atan2 n.2 n.1
    let ti := clamp_angle (qb + p.angle)
    let tj := clamp_angle (qb + pj.angle)
    let f_n : Vec2 := (kn * dl) • n
    let f_t : Vec2 := (-kn / 3 * (r * r) / vlen l * (ti + tj)) • t
    let tq := kn / 6 * (r * r) * (tj - 3 * ti)
    if (dl > 0 ∧ vlen f_n / 2 / r + |kn / 2 * (tj - ti)| > b.max_normal_force)
        ∨ vlen f_t / 2 / r > b.max_tangent_force then
      ({ b with broken := true }, 0, 0)
    else (b, f_n + f_t, tq)

/-- The bond pass for owner `i` (source lines 183-208): evaluate every bond
of `i`, store the updated bonds and add the contributions to `force_i` and
`torque_i`.  Nothing outside index `i` is written. -/
def bondStep (kn r : ℝ) (pts : List Particle) (i : ℕ) : List Particle :=
  match pts[i]? with
  | none => pts
  | some p =>
    pts.set i
      { p with
        bonds := (p.bonds.map (evalBond kn r pts p)).map (fun x => x.1)
        force := p.force + ((p.bonds.map (evalBond kn r pts p)).map (fun x => x.2.1)).sum
        torque := p.torque + ((p.bonds.map (evalBond kn r pts p)).map (fun x => x.2.2)).sum }

/-- The kick applied to one particle (source lines 210-220). -/
def kick (dt : ℝ) (p : Particle) : Particle :=
  let acc : Vec2 := p.inverse_mass • p.force +
    (if p.inverse_mass > 1e-6 then ((0 : ℝ), (-9.8 : ℝ)) else 0)
  { p with
    velocity := p.velocity_mid + (0.5 * dt) • acc
    velocity_mid := p.velocity_mid + dt • acc
    angvel := p.angvel_mid + p.torque * p.inverse_moment * 0.5 * dt
    angvel_mid := p.angvel_mid + p.torque * p.inverse_moment * dt }

/-- The kick loop over every particle (source lines 209-221).  In the source
this loop is nested inside the per-particle force loop. -/
def kickAll (dt : ℝ) (pts : List Particle) : List Particle := pts.map (kick dt)

/-- The body of the `for i in 0..pts.len()` loop (source lines 165-222):
skip immovable owners, otherwise run the contact pass and the bond pass for
`i` and then kick every particle. -/
def processParticle (kn r dt : ℝ) (pts : List Particle) (i : ℕ) : List Particle :=
  if (pts.getD i default).inverse_mass ≤ 1e-6 then pts
  else kickAll dt (bondStep kn r (contactStep kn pts i) i)

/-- One sub-step of the simulation (source lines 157-222): the drift pass
over every particle followed by the per-particle force/kick loop. -/
def subStep (kn r dt : ℝ) (pts : List Particle) : List Particle :=
  (List.range (pts.map (driftParticle dt)).length).foldl (processParticle kn r dt)
    (pts.map (driftParticle dt))

/-- The sub-step count of the scheduler (source line 153):
`(1.0 / fps / (7.5e3 * r * r / kn)) as u32 * 10`; the `as u32` cast
truncates the (positive) value toward zero. -/
def schedS (fps r kn : ℝ) : ℕ := (⌊1 / fps / (7.5e3 * (r * r) / kn)⌋).toNat * 10

/-- The sub-step size of the scheduler (source line 154): `1.0 / fps / s`. -/
def schedDt (fps : ℝ) (s : ℕ) : ℝ := 1 / fps / (s : ℝ)

/-- The brokenness of bond number `k` of particle number `i`. -/
def bondBroken (pts : List Particle) (i k : ℕ) : Bool :=
  (((pts.getD i default).bonds).getD k default).broken

/-- The kinematic state of an immovable particle as the scene initializer
creates it: zero inverse mass and moment, zero velocities, and a fixed
position and angle. -/
def FrozenAt (x0 : Vec2) (a0 : ℝ) (p : Particle) : Prop :=
  p.inverse_mass = 0 ∧ p.inverse_moment = 0 ∧ p.velocity = 0 ∧ p.velocity_mid = 0 ∧
  p.angvel = 0 ∧ p.angvel_mid = 0 ∧ p.position = x0 ∧ p.angle = a0

theorem rem_euclid_eq_fract (x y : ℝ) (hy : y ≠ 0) :
    rem_euclid x y = y * Int.fract (x / y) := by
  unfold rem_euclid
  rw [Int.fract, mul_sub, mul_div_cancel₀ x hy]

theorem rem_euclid_mem_Ico (x y : ℝ) (hy : 0 < y) :
    rem_euclid x y ∈ Set.Ico 0 y := by
  rw [rem_euclid_eq_fract x y (ne_of_gt hy)]
  constructor
  · exact mul_nonneg hy.le (Int.fract_nonneg _)
  · calc y * Int.fract (x / y) < y * 1 :=
        mul_lt_mul_of_pos_left (Int.fract_lt_one _) hy
    _ = y := mul_one y

theorem rem_euclid_eq_self (x y : ℝ) (h0 : 0 ≤ x) (h1 : x < y) :
    rem_euclid x y = x := by
  have hy : 0 < y := lt_of_le_of_lt h0 h1
  have hfl : ⌊x / y⌋ = 0 := by
    rw [Int.floor_eq_zero_iff]
    constructor
    · exact div_nonneg h0 hy.le
    · rw [div_lt_one hy]; exact h1
  unfold rem_euclid
  rw [hfl]
  simp

theorem clamp_angle_mem_Ico (a : ℝ) :
    clamp_angle a ∈ Set.Ico (-Real.pi) Real.pi := by
  have h := rem_euclid_mem_Ico (a + Real.pi) (2 * Real.pi) Real.two_pi_pos
  unfold clamp_angle
  constructor
  · have := h.1; linarith
  · have := h.2; linarith

theorem clamp_angle_eq_self {a : ℝ} (h : a ∈ Set.Ico (-Real.pi) Real.pi) :
    clamp_angle a = a := by
  unfold clamp_angle
  rw [rem_euclid_eq_self (a + Real.pi) (2 * Real.pi) (by have := h.1; linarith)
    (by have := h.2; linarith)]
  ring

theorem clamp_angle_idem (a : ℝ) :
    clamp_angle (clamp_angle a) = clamp_angle a :=
  clamp_angle_eq_self (clamp_angle_mem_Ico a)

theorem clamp_angle_zero : clamp_angle 0 = 0 :=
  clamp_angle_eq_self ⟨by linarith [Real.pi_pos], Real.pi_pos⟩

theorem kick_angle (dt : ℝ) (p : Particle) : (kick dt p).angle = p.angle := rfl

theorem kick_position (dt : ℝ) (p : Particle) : (kick dt p).position = p.position := rfl

theorem kick_bonds (dt : ℝ) (p : Particle) : (kick dt p).bonds = p.bonds := rfl

theorem kick_inverse_mass (dt : ℝ) (p : Particle) :
    (kick dt p).inverse_mass = p.inverse_mass := rfl

theorem kick_inverse_moment (dt : ℝ) (p : Particle) :
    (kick dt p).inverse_moment = p.inverse_moment := rfl

theorem length_contactStep (kn : ℝ) (pts : List Particle) (i : ℕ) :
    (contactStep kn pts i).length = pts.length := by
  unfold contactStep
  split
  · rfl
  · exact List.length_set ..

theorem length_bondStep (kn r : ℝ) (pts : List Particle) (i : ℕ) :
    (bondStep kn r pts i).length = pts.length := by
  unfold bondStep
  split
  · rfl
  · exact List.length_set ..

theorem length_kickAll (dt : ℝ) (pts : List Particle) :
    (kickAll dt pts).length = pts.length := List.length_map ..

theorem length_processParticle (kn r dt : ℝ) (pts : List Particle) (i : ℕ) :
    (processParticle kn r dt pts i).length = pts.length := by
  unfold processParticle
  split
  · rfl
  · rw [length_kickAll, length_bondStep, length_contactStep]

theorem length_foldl_process (kn r dt : ℝ) (l : List ℕ) (pts : List Particle) :
    (l.foldl (processParticle kn r dt) pts).length = pts.length := by
  induction l generalizing pts with
  | nil => rfl
  | cons m l ih => rw [List.foldl_cons, ih, length_processParticle]

theorem length_subStep (kn r dt : ℝ) (pts : List Particle) :
    (subStep kn r dt pts).length = pts.length := by
  unfold subStep
  rw [length_foldl_process, List.length_map]

theorem contactStep_getElem_ne (kn : ℝ) (pts : List Particle) (i j : ℕ) (h : j ≠ i) :
    (contactStep kn pts i)[j]? = pts[j]? := by
  unfold contactStep
  split
  · rfl
  · exact List.getElem?_set_ne h.symm

theorem bondStep_getElem_ne (kn r : ℝ) (pts : List Particle) (i j : ℕ) (h : j ≠ i) :
    (bondStep kn r pts i)[j]? = pts[j]? := by
  unfold bondStep
  split
  · rfl
  · exact List.getElem?_set_ne h.symm

theorem kickAll_getElem (dt : ℝ) (pts : List Particle) (j : ℕ) :
    (kickAll dt pts)[j]? = (pts[j]?).map (kick dt) :=
  List.getElem?_map ..

theorem contactStep_getElem_angle (kn : ℝ) (pts : List Particle) (i j : ℕ) :
    ((contactStep kn pts i)[j]?).map Particle.angle = (pts[j]?).map Particle.angle := by
  by_cases hj : j = i
  · subst hj
    unfold contactStep
    split
    · rfl
    · next p hp =>
        rw [List.getElem?_set_self', hp]
        rfl
  · rw [contactStep_getElem_ne kn pts i j hj]

theorem bondStep_getElem_angle (kn r : ℝ) (pts : List Particle) (i j : ℕ) :
    ((bondStep kn r pts i)[j]?).map Particle.angle = (pts[j]?).map Particle.angle := by
  by_cases hj : j = i
  · subst hj
    unfold bondStep
    split
    · rfl
    · next p hp =>
        rw [List.getElem?_set_self', hp]
        rfl
  · rw [bondStep_getElem_ne kn r pts i j hj]

theorem processParticle_getElem_angle (kn r dt : ℝ) (pts : List Particle) (m j : ℕ) :
    ((processParticle kn r dt pts m)[j]?).map Particle.angle
      = (pts[j]?).map Particle.angle := by
  unfold processParticle
  split
  · rfl
  · rw [kickAll_getElem]
    have h1 := bondStep_getElem_angle kn r (contactStep kn pts m) m j
    have h2 := contactStep_getElem_angle kn pts m j
    rw [← h2, ← h1]
    cases (bondStep kn r (contactStep kn pts m) m)[j]? with
    | none => rfl
    | some q => rfl

theorem foldl_process_getElem_angle (kn r dt : ℝ) (l : List ℕ) (pts : List Particle)
    (j : ℕ) :
    ((l.foldl (processParticle kn r dt) pts)[j]?).map Particle.angle
      = (pts[j]?).map Particle.angle := by
  induction l generalizing pts with
  | nil => rfl
  | cons m l ih => rw [List.foldl_cons, ih, processParticle_getElem_angle]

theorem getD_field_of_getElem?_map {α : Type} (f : Particle → α)
    {l1 l2 : List Particle} {i : ℕ}
    (h : (l1[i]?).map f = (l2[i]?).map f) :
    f (l1.getD i default) = f (l2.getD i default) := by
  rw [List.getD_eq_getElem?_getD, List.getD_eq_getElem?_getD]
  have h' : ((l1[i]?).map f).getD (f default) = ((l2[i]?).map f).getD (f default) := by
    rw [h]
  rwa [Option.getD_map, Option.getD_map] at h'

theorem contactStep_getElem_bonds (kn : ℝ) (pts : List Particle) (i j : ℕ) :
    ((contactStep kn pts i)[j]?).map Particle.bonds = (pts[j]?).map Particle.bonds := by
  by_cases hj : j = i
  · subst hj
    unfold contactStep
    split
    · rfl
    · next p hp =>
        rw [List.getElem?_set_self', hp]
        rfl
  · rw [contactStep_getElem_ne kn pts i j hj]

theorem kickAll_getElem_bonds (dt : ℝ) (pts : List Particle) (j : ℕ) :
    ((kickAll dt pts)[j]?).map Particle.bonds = (pts[j]?).map Particle.bonds := by
  rw [kickAll_getElem]
  cases pts[j]? with
  | none => rfl
  | some q => rfl

theorem driftMap_getElem_bonds (dt : ℝ) (pts : List Particle) (j : ℕ) :
    ((pts.map (driftParticle dt))[j]?).map Particle.bonds
      = (pts[j]?).map Particle.bonds := by
  rw [List.getElem?_map]
  cases pts[j]? with
  | none => rfl
  | some q => rfl

theorem bondBroken_congr {l1 l2 : List Particle} {i : ℕ} (k : ℕ)
    (h : (l1[i]?).map Particle.bonds = (l2[i]?).map Particle.bonds) :
    bondBroken l1 i k = bondBroken l2 i k := by
  unfold bondBroken
  rw [getD_field_of_getElem?_map Particle.bonds h]

theorem evalBond_broken_of_broken (kn r : ℝ) (pts : List Particle) (p : Particle)
    {b : Bond} (h : b.broken = true) : evalBond kn r pts p b = (b, 0, 0) := by
  unfold evalBond
  rw [if_pos h]

theorem bondStep_getD_owner (kn r : ℝ) (pts : List Particle) (i : ℕ) (p : Particle)
    (hp : pts[i]? = some p) :
    (bondStep kn r pts i).getD i default =
      { p with
        bonds := (p.bonds.map (evalBond kn r pts p)).map (fun x => x.1)
        force := p.force + ((p.bonds.map (evalBond kn r pts p)).map (fun x => x.2.1)).sum
        torque := p.torque +
          ((p.bonds.map (evalBond kn r pts p)).map (fun x => x.2.2)).sum } := by
  unfold bondStep
  simp only [hp]
  rw [List.getD_eq_getElem?_getD, List.getElem?_set_self', hp]
  rfl

theorem bondStep_bondBroken_mono (kn r : ℝ) (pts : List Particle) (i j k : ℕ)
    (h : bondBroken pts j k = true) :
    bondBroken (bondStep kn r pts i) j k = true := by
  by_cases hj : j = i
  · subst hj
    cases hp : pts[j]? with
    | none =>
      have hnone : bondStep kn r pts j = pts := by
        unfold bondStep
        simp only [hp]
      rw [hnone]
      exact h
    | some p =>
      have hpd : pts.getD j default = p := by
        rw [List.getD_eq_getElem?_getD, hp]
        rfl
      unfold bondBroken at h ⊢
      rw [hpd] at h
      rw [bondStep_getD_owner kn r pts j p hp]
      cases hbk : p.bonds[k]? with
      | none =>
        rw [List.getD_eq_getElem?_getD, hbk] at h
        have hd : (default : Bond).broken = false := rfl
        simp only [Option.getD_none, hd] at h
        exact Bool.noConfusion h
      | some b =>
        rw [List.getD_eq_getElem?_getD, hbk] at h
        simp only [Option.getD_some] at h
        rw [List.getD_eq_getElem?_getD]
        simp only [List.map_map, List.getElem?_map, hbk]
        simp [Function.comp, evalBond_broken_of_broken kn r pts p h, h]
  · unfold bondBroken
    rw [getD_field_of_getElem?_map Particle.bonds
      (by rw [bondStep_getElem_ne kn r pts i j hj] : ((bondStep kn r pts i)[j]?).map
        Particle.bonds = (pts[j]?).map Particle.bonds)]
    exact h

theorem processParticle_bondBroken_mono (kn r dt : ℝ) (pts : List Particle)
    (m i k : ℕ) (h : bondBroken pts i k = true) :
    bondBroken (processParticle kn r dt pts m) i k = true := by
  unfold processParticle
  split
  · exact h
  · rw [bondBroken_congr k (kickAll_getElem_bonds ..)]
    refine bondStep_bondBroken_mono kn r _ m i k ?_
    rw [bondBroken_congr k (contactStep_getElem_bonds ..)]
    exact h

theorem subStep_bondBroken_mono (kn r dt : ℝ) (pts : List Particle) (i k : ℕ)
    (h : bondBroken pts i k = true) :
    bondBroken (subStep kn r dt pts) i k = true := by
  unfold subStep
  have hdrift : bondBroken (pts.map (driftParticle dt)) i k = true := by
    rw [bondBroken_congr k (driftMap_getElem_bonds ..)]
    exact h
  clear h
  revert hdrift
  generalize List.range (pts.map (driftParticle dt)).length = l
  generalize pts.map (driftParticle dt) = q
  induction l generalizing q with
  | nil => exact fun hdrift => hdrift
  | cons m l ih =>
    intro hdrift
    rw [List.foldl_cons]
    exact ih _ (processParticle_bondBroken_mono kn r dt q m i k hdrift)

theorem iterate_bondBroken_mono (kn r dt : ℝ) (pts : List Particle) (i k n : ℕ)
    (h : bondBroken pts i k = true) :
    bondBroken ((subStep kn r dt)^[n] pts) i k = true := by
  induction n generalizing pts with
  | zero => exact h
  | succ n ih =>
    rw [Function.iterate_succ_apply]
    exact ih _ (subStep_bondBroken_mono kn r dt pts i k h)

theorem vlen_sub_comm (v w : Vec2) : vlen (v - w) = vlen (w - v) := by
  unfold vlen
  rw [Prod.fst_sub, Prod.snd_sub, Prod.fst_sub, Prod.snd_sub]
  congr 1
  ring

theorem contact_antisymm (kn : ℝ) (pa pb : Particle) :
    contactForceOn kn pa pb = -contactForceOn kn pb pa := by
  simp only [contactForceOn, vnormalize, vdot]
  rw [vlen_sub_comm pb.position pa.position,
    add_comm pb.inverse_mass pa.inverse_mass, add_comm pb.radius pa.radius]
  split_ifs with h
  · rw [neg_zero]
  · apply Prod.ext
    · simp only [Prod.fst_sub, Prod.snd_sub, Prod.smul_fst, Prod.fst_neg, smul_eq_mul]
      ring
    · simp only [Prod.fst_sub, Prod.snd_sub, Prod.smul_snd, Prod.snd_neg, smul_eq_mul]
      ring

theorem contactStep_getD_owner (kn : ℝ) (pts : List Particle) (i : ℕ) (p : Particle)
    (hp : pts[i]? = some p) :
    (contactStep kn pts i).getD i default
      = { p with force := ((List.range pts.length).foldl
            (fun acc j => if j = i then acc
              else acc + contactForceOn kn p (pts.getD j default)) p.force) } := by
  unfold contactStep
  simp only [hp]
  rw [List.getD_eq_getElem?_getD, List.getElem?_set_self', hp]
  rfl

theorem foldl_ite_add (f : ℕ → Vec2) (i : ℕ) (F : Vec2) (nn : ℕ) :
    (List.range nn).foldl (fun acc j => if j = i then acc else acc + f j) F
      = F + ∑ j in Finset.range nn, (if j = i then 0 else f j) := by
  induction nn with
  | zero => simp
  | succ m ih =>
    rw [List.range_succ, List.foldl_append, ih, Finset.sum_range_succ,
      List.foldl_cons, List.foldl_nil]
    by_cases hm : m = i
    · rw [if_pos hm, if_pos hm, add_zero]
    · rw [if_neg hm, if_neg hm, add_assoc]

/-- C4 counterexample: the claim says `wrap(θ) ∈ (−π, π]`, but the source's
`clamp_angle` maps `π` to `−π`, which is not in the half-open interval
`(−π, π]`. -/
theorem c4_wrap_range_cex :
    clamp_angle Real.pi = -Real.pi ∧ -Real.pi ∉ Set.Ioc (-Real.pi) Real.pi := by
  constructor
  · unfold clamp_angle rem_euclid
    have h2 : Real.pi + Real.pi = 2 * Real.pi := by ring
    rw [h2, div_self (ne_of_gt Real.two_pi_pos), Int.floor_one]
    push_cast
    ring
  · intro hmem
    exact lt_irrefl _ hmem.1

/-- C4 (amended): for every real `θ`, `clamp_angle θ` lies in the half-open
interval `[−π, π)` (not `(−π, π]` as claimed), `clamp_angle` is idempotent,
and every particle's angle lies in `[−π, π)` after each sub-step. -/
theorem c4_wrap_range_idem (θ kn r dt : ℝ) (pts : List Particle) (i : ℕ) :
    clamp_angle θ ∈ Set.Ico (-Real.pi) Real.pi ∧
    clamp_angle (clamp_angle θ) = clamp_angle θ ∧
    ((subStep kn r dt pts).getD i default).angle ∈ Set.Ico (-Real.pi) Real.pi := by
  refine ⟨clamp_angle_mem_Ico θ, clamp_angle_idem θ, ?_⟩
  have hsub : ((subStep kn r dt pts)[i]?).map Particle.angle
      = ((pts.map (driftParticle dt))[i]?).map Particle.angle := by
    unfold subStep
    exact foldl_process_getElem_angle ..
  rw [List.getD_eq_getElem?_getD]
  cases hq : (subStep kn r dt pts)[i]? with
  | none =>
    simp only [Option.getD_none]
    have hd : (default : Particle).angle = 0 := rfl
    rw [hd]
    exact ⟨by linarith [Real.pi_pos], Real.pi_pos⟩
  | some q =>
    simp only [Option.getD_some]
    rw [hq, List.getElem?_map] at hsub
    cases hp : pts[i]? with
    | none => rw [hp] at hsub; simp at hsub
    | some p =>
      rw [hp] at hsub
      simp at hsub
      rw [hsub]
      exact clamp_angle_mem_Ico _

/-- C5: a fresh bond starts unbroken; once a bond is broken it stays broken
for any number of further sub-steps (nothing ever resets the flag), and a
broken bond contributes zero force and zero torque whenever it is
evaluated. -/
theorem c5_broken_monotone (kn r dt : ℝ) (j : ℕ) (l : ℝ) (d : Vec2) (tn tt : ℝ)
    (pts : List Particle) (i k n : ℕ) (p : Particle) (b : Bond) :
    (Bond.new j l d tn tt).broken = false ∧
    (bondBroken pts i k = true → bondBroken ((subStep kn r dt)^[n] pts) i k = true) ∧
    (b.broken = true → evalBond kn r pts p b = (b, 0, 0)) :=
  ⟨rfl, fun h => iterate_bondBroken_mono kn r dt pts i k n h,
    fun h => evalBond_broken_of_broken kn r pts p h⟩

/-- C9 counterexample: with the program's constants the scheduler picks
`S = 555550` sub-steps and `dt = 1/fps/S`, so a batch of 1000 sub-steps
covers `1000·dt = 1/33333` seconds, far less than a frame interval `1/60`:
the claimed inequality `1000·dt ≥ 1/fps` is false. -/
theorem c9_batch_cex :
    schedS 60 0.02 1e7 = 555550 ∧
    ¬(1000 * schedDt 60 (schedS 60 0.02 1e7) ≥ 1 / 60) := by
  have hfl : ⌊(1 : ℝ) / 60 / (7.5e3 * ((0.02 : ℝ) * 0.02) / 1e7)⌋ = 55555 := by
    rw [Int.floor_eq_iff]
    norm_num
  have hs : schedS 60 0.02 1e7 = 555550 := by
    unfold schedS
    rw [hfl]
    rfl
  refine ⟨hs, ?_⟩
  rw [hs]
  unfold schedDt
  norm_num

/-- C9 (amended): the scheduler computes `S = ⌊1/fps / (7.5e3·r²/kn)⌋ · 10`
and `dt = 1/fps/S`, which for `fps = 60`, `r = 0.02`, `kn = 1e7` gives
`S = 555550` and `dt = 1/(60·555550)`; the fixed batch of 1000 sub-steps per
rendered frame therefore covers `1000·dt = 1/33333 < 1/fps` of simulated
time — strictly less than one frame interval, not at least one as claimed. -/
theorem c9_scheduler :
    schedS 60 0.02 1e7 = 555550 ∧
    schedDt 60 (schedS 60 0.02 1e7) = 1 / 60 / 555550 ∧
    1000 * schedDt 60 (schedS 60 0.02 1e7) = 1 / 33333 ∧
    1000 * schedDt 60 (schedS 60 0.02 1e7) < 1 / 60 := by
  have hfl : ⌊(1 : ℝ) / 60 / (7.5e3 * ((0.02 : ℝ) * 0.02) / 1e7)⌋ = 55555 := by
    rw [Int.floor_eq_iff]
    norm_num
  have hs : schedS 60 0.02 1e7 = 555550 := by
    unfold schedS
    rw [hfl]
    rfl
  refine ⟨hs, ?_, ?_, ?_⟩ <;> rw [hs] <;> unfold schedDt <;> norm_num

/-- C10: one sub-step is a deterministic function of the simulation state:
from element-wise equal particle lists (equal positions, velocities,
mid-velocities, angles, angular velocities, bonds and broken flags force
the lists to be equal element-wise) the sub-step produces equal states. -/
theorem c10_substep_deterministic (kn r dt : ℝ) (pts1 pts2 : List Particle)
    (h : ∀ i : ℕ, pts1[i]? = pts2[i]?) :
    subStep kn r dt pts1 = subStep kn r dt pts2 := by
  have heq : pts1 = pts2 := List.ext_getElem? h
  rw [heq]

/-- C10 witness: the determinism theorem applied at a concrete one-particle
state. -/
theorem c10_substep_deterministic_witness :
    (∀ i : ℕ, ([default] : List Particle)[i]? = ([default] : List Particle)[i]?) ∧
    subStep 1 1 1 [default] = subStep 1 1 1 [default] :=
  ⟨fun _ => rfl, c10_substep_deterministic 1 1 1 [default] [default] (fun _ => rfl)⟩

/-- C7: for two overlapping movable particles with velocities held fixed,
the contact force computed for `pa` from `pb` and the one computed for `pb`
from `pa` are equal in magnitude and opposite in direction. -/
theorem c7_contact_reciprocity (kn : ℝ) (pa pb : Particle)
    (hma : (1e-6 : ℝ) < pa.inverse_mass) (hmb : (1e-6 : ℝ) < pb.inverse_mass)
    (hov : (1e-12 : ℝ) ≤ pa.radius + pb.radius - vlen (pa.position - pb.position)) :
    contactForceOn kn pa pb = -contactForceOn kn pb pa :=
  contact_antisymm kn pa pb

/-- C7 witness: reciprocity at two concrete unit-inverse-mass particles of
radius 3 at distance 5 (overlap 1). -/
theorem c7_contact_reciprocity_witness :
    ((1e-6 : ℝ) < (Particle.new 1 1 3 (3, 4)).inverse_mass ∧
     (1e-6 : ℝ) < (Particle.new 1 1 3 (0, 0)).inverse_mass ∧
     (1e-12 : ℝ) ≤ (Particle.new 1 1 3 (3, 4)).radius + (Particle.new 1 1 3 (0, 0)).radius
        - vlen ((Particle.new 1 1 3 (3, 4)).position - (Particle.new 1 1 3 (0, 0)).position)) ∧
    contactForceOn 1e7 (Particle.new 1 1 3 (3, 4)) (Particle.new 1 1 3 (0, 0))
      = -contactForceOn 1e7 (Particle.new 1 1 3 (0, 0)) (Particle.new 1 1 3 (3, 4)) := by
  have hov : (1e-12 : ℝ) ≤ (Particle.new 1 1 3 (3, 4)).radius
      + (Particle.new 1 1 3 (0, 0)).radius
      - vlen ((Particle.new 1 1 3 (3, 4)).position - (Particle.new 1 1 3 (0, 0)).position) := by
    have hv : ((Particle.new 1 1 3 (3, 4)).position
        - (Particle.new 1 1 3 (0, 0)).position) = ((3 : ℝ), (4 : ℝ)) := by
      show ((3 : ℝ), (4 : ℝ)) - ((0 : ℝ), (0 : ℝ)) = ((3 : ℝ), (4 : ℝ))
      simp
    rw [hv]
    unfold vlen
    rw [show ((3 : ℝ), (4 : ℝ)).1 ^ 2 + ((3 : ℝ), (4 : ℝ)).2 ^ 2 = 5 ^ 2 by norm_num,
      Real.sqrt_sq (by norm_num)]
    show (1e-12 : ℝ) ≤ 3 + 3 - 5
    norm_num
  exact ⟨⟨by norm_num [Particle.new], by norm_num [Particle.new], hov⟩,
    c7_contact_reciprocity 1e7 (Particle.new 1 1 3 (3, 4)) (Particle.new 1 1 3 (0, 0))
      (by norm_num [Particle.new]) (by norm_num [Particle.new]) hov⟩

/-- C2: the bond pass writes only the owning particle's entry; the owner's
force and torque accumulators each gain exactly the sum of the per-bond
contributions; and an unbroken bond that does not trip the breaking test
contributes exactly the normal force `n·kn·dl`, the tangential force
`t·(−kn/3·r²/|l|)·(ti+tj)` and the bending torque `kn/6·r²·(tj − 3·ti)`. -/
theorem c2_bond_force_formulas (kn r : ℝ) (pts : List Particle) (i : ℕ)
    (p : Particle) (b : Bond) :
    (∀ j, j ≠ i → (bondStep kn r pts i)[j]? = pts[j]?) ∧
    ((bondStep kn r pts i).getD i default).force
        = (pts.getD i default).force
          + ((pts.getD i default).bonds.map
              (fun b0 => (evalBond kn r pts (pts.getD i default) b0).2.1)).sum ∧
    ((bondStep kn r pts i).getD i default).torque
        = (pts.getD i default).torque
          + ((pts.getD i default).bonds.map
              (fun b0 => (evalBond kn r pts (pts.getD i default) b0).2.2)).sum ∧
    (b.broken = false →
      ∀ pj l n t dl qb ti tj f_n f_t,
        pj = pts.getD b.endpoint default →
        l = pj.position - p.position →
        n = vnormalize l →
        t = vperp n →
        dl = vlen l - b.length →
        qb = atan2 b.direction.2 b.direction.1 - atan2 n.2 n.1 →
        ti = clamp_angle (qb + p.angle) →
        tj = clamp_angle (qb + pj.angle) →
        f_n = (kn * dl) • n →
        f_t = (-kn / 3 * (r * r) / vlen l * (ti + tj)) • t →
        ¬((dl > 0 ∧ vlen f_n / 2 / r + |kn / 2 * (tj - ti)| > b.max_normal_force)
            ∨ vlen f_t / 2 / r > b.max_tangent_force) →
        evalBond kn r pts p b = (b, f_n + f_t, kn / 6 * (r * r) * (tj - 3 * ti))) := by
  refine ⟨fun j hj => bondStep_getElem_ne kn r pts i j hj, ?_, ?_, ?_⟩
  · cases hp : pts[i]? with
    | none =>
      have hnone : bondStep kn r pts i = pts := by
        unfold bondStep
        simp only [hp]
      have hd : pts.getD i default = default := by
        rw [List.getD_eq_getElem?_getD, hp]
        rfl
      rw [hnone, hd]
      have hb : (default : Particle).bonds = [] := rfl
      rw [hb]
      simp
    | some p2 =>
      have hd : pts.getD i default = p2 := by
        rw [List.getD_eq_getElem?_getD, hp]
        rfl
      rw [bondStep_getD_owner kn r pts i p2 hp, hd]
      simp only [List.map_map]
      rfl
  · cases hp : pts[i]? with
    | none =>
      have hnone : bondStep kn r pts i = pts := by
        unfold bondStep
        simp only [hp]
      have hd : pts.getD i default = default := by
        rw [List.getD_eq_getElem?_getD, hp]
        rfl
      rw [hnone, hd]
      have hb : (default : Particle).bonds = [] := rfl
      rw [hb]
      simp
    | some p2 =>
      have hd : pts.getD i default = p2 := by
        rw [List.getD_eq_getElem?_getD, hp]
        rfl
      rw [bondStep_getD_owner kn r pts i p2 hp, hd]
      simp only [List.map_map]
      rfl
  · intro hb pj l n t dl qb ti tj f_n f_t h1 h2 h3 h4 h5 h6 h7 h8 h9 h10 hcond
    subst h1 h2 h3 h4 h5 h6 h7 h8 h9 h10
    unfold evalBond
    rw [if_neg (by rw [hb]; exact Bool.false_ne_true)]
    rw [if_neg hcond]

/-- C3: during evaluation of an unbroken bond, the bond is marked broken
precisely when `(dl > 0 ∧ |f_n|/(2r) + |kn/2·(tj−ti)| > max_normal_force)`
or `|f_t|/(2r) > max_tangent_force`; a bond that breaks contributes zero
force and torque in that evaluation, and a broken bond contributes zero in
every later sub-step (brokenness persists under sub-steps and a broken bond
always evaluates to zero contribution). -/
theorem c3_breaking_test (kn r dt : ℝ) (pts : List Particle) (p : Particle)
    (b : Bond) (i k n0 : ℕ) :
    (b.broken = false →
      ∀ pj l n t dl qb ti tj f_n f_t,
        pj = pts.getD b.endpoint default →
        l = pj.position - p.position →
        n = vnormalize l →
        t = vperp n →
        dl = vlen l - b.length →
        qb = atan2 b.direction.2 b.direction.1 - atan2 n.2 n.1 →
        ti = clamp_angle (qb + p.angle) →
        tj = clamp_angle (qb + pj.angle) →
        f_n = (kn * dl) • n →
        f_t = (-kn / 3 * (r * r) / vlen l * (ti + tj)) • t →
        (((evalBond kn r pts p b).1.broken = true ↔
            ((dl > 0 ∧ vlen f_n / 2 / r + |kn / 2 * (tj - ti)| > b.max_normal_force)
              ∨ vlen f_t / 2 / r > b.max_tangent_force)) ∧
          (((dl > 0 ∧ vlen f_n / 2 / r + |kn / 2 * (tj - ti)| > b.max_normal_force)
              ∨ vlen f_t / 2 / r > b.max_tangent_force) →
            evalBond kn r pts p b = ({ b with broken := true }, 0, 0)))) ∧
    (b.broken = true → evalBond kn r pts p b = (b, 0, 0)) ∧
    (bondBroken pts i k = true →
      bondBroken ((subStep kn r dt)^[n0] pts) i k = true) := by
  refine ⟨?_, fun h => evalBond_broken_of_broken kn r pts p h,
    fun h => iterate_bondBroken_mono kn r dt pts i k n0 h⟩
  intro hb pj l n t dl qb ti tj f_n f_t h1 h2 h3 h4 h5 h6 h7 h8 h9 h10
  subst h1 h2 h3 h4 h5 h6 h7 h8 h9 h10
  simp only [evalBond, hb, Bool.false_eq_true, if_false]
  split_ifs with hc
  · exact ⟨⟨fun _ => hc, fun _ => rfl⟩, fun _ => rfl⟩
  · constructor
    · constructor
      · intro hft
        rw [hb] at hft
        exact absurd hft Bool.false_ne_true
      · intro hcc
        exact absurd hcc hc
    · intro hcc
      exact absurd hcc hc

theorem contactForceOn_far (kn : ℝ) (pa pb : Particle)
    (h : pa.radius + pb.radius - vlen (pa.position - pb.position) < 1e-12) :
    contactForceOn kn pa pb = 0 := by
  simp only [contactForceOn]
  rw [if_pos h]

theorem set_getElem_self {α : Type} (l : List α) (i : ℕ) (a : α)
    (hp : l[i]? = some a) : l.set i a = l := by
  apply List.ext_getElem?
  intro j
  by_cases hj : j = i
  · subst hj
    rw [List.getElem?_set_self', hp]
    rfl
  · exact List.getElem?_set_ne (fun he => hj he.symm)

theorem contactStep_id (kn : ℝ) (pts : List Particle) (i : ℕ) (p : Particle)
    (hp : pts[i]? = some p)
    (h : ∀ j, j < pts.length → j ≠ i → contactForceOn kn p (pts.getD j default) = 0) :
    contactStep kn pts i = pts := by
  unfold contactStep
  simp only [hp]
  have hfold : ((List.range pts.length).foldl
      (fun acc j => if j = i then acc
        else acc + contactForceOn kn p (pts.getD j default)) p.force) = p.force := by
    rw [foldl_ite_add]
    have hz : ∀ j ∈ Finset.range pts.length,
        (if j = i then (0 : Vec2) else contactForceOn kn p (pts.getD j default)) = 0 := by
      intro j hj
      by_cases hji : j = i
      · rw [if_pos hji]
      · rw [if_neg hji, h j (Finset.mem_range.1 hj) hji]
    rw [Finset.sum_congr rfl hz, Finset.sum_const_zero, add_zero]
  rw [hfold]
  exact set_getElem_self pts i p hp

theorem bondStep_nil (kn r : ℝ) (pts : List Particle) (i : ℕ) (p : Particle)
    (hp : pts[i]? = some p) (hb : p.bonds = []) : bondStep kn r pts i = pts := by
  unfold bondStep
  simp only [hp, hb]
  have hrec : ({ p with
      bonds := (([] : List Bond).map (evalBond kn r pts p)).map (fun x => x.1)
      force := p.force
        + ((([] : List Bond).map (evalBond kn r pts p)).map (fun x => x.2.1)).sum
      torque := p.torque
        + ((([] : List Bond).map (evalBond kn r pts p)).map (fun x => x.2.2)).sum }
      : Particle) = p := by
    refine Particle.ext ?_ rfl rfl rfl rfl rfl rfl ?_ rfl rfl rfl ?_
    · show ([] : List Bond) = p.bonds
      rw [hb]
    · show p.torque + 0 = p.torque
      exact add_zero _
    · show p.force + 0 = p.force
      exact add_zero _
  rw [hrec]
  exact set_getElem_self pts i p hp

theorem processParticle_free (kn r dt : ℝ) (ps : List Particle) (i : ℕ) (p : Particle)
    (hp : ps[i]? = some p)
    (hm : (1e-6 : ℝ) < p.inverse_mass)
    (hb : p.bonds = [])
    (hc : ∀ j, j < ps.length → j ≠ i → contactForceOn kn p (ps.getD j default) = 0) :
    processParticle kn r dt ps i = kickAll dt ps := by
  unfold processParticle
  have hg : ps.getD i default = p := by
    rw [List.getD_eq_getElem?_getD, hp]
    rfl
  rw [hg, if_neg (not_le.2 hm), contactStep_id kn ps i p hp hc,
    bondStep_nil kn r ps i p hp hb]

theorem drift_new (dt im ii r : ℝ) (x : Vec2) :
    driftParticle dt (Particle.new im ii r x) = Particle.new im ii r x := by
  refine Particle.ext rfl rfl rfl rfl ?_ rfl rfl rfl ?_ rfl rfl rfl
  · show clamp_angle (0 + 0 * dt) = 0
    rw [zero_mul, add_zero, clamp_angle_zero]
  · show x + dt • (0 : Vec2) = x
    rw [smul_zero, add_zero]

theorem subStep_two_free (kn r dt : ℝ) (pa pb : Particle)
    (hma : (1e-6 : ℝ) < pa.inverse_mass) (hmb : (1e-6 : ℝ) < pb.inverse_mass)
    (hba : pa.bonds = []) (hbb : pb.bonds = [])
    (hda : driftParticle dt pa = pa) (hdb : driftParticle dt pb = pb)
    (hfar : pa.radius + pb.radius - vlen (pa.position - pb.position) < 1e-12)
    (hfar2 : pb.radius + pa.radius - vlen (pb.position - pa.position) < 1e-12) :
    subStep kn r dt [pa, pb] = [kick dt (kick dt pa), kick dt (kick dt pb)] := by
  unfold subStep
  rw [List.map_cons, List.map_cons, List.map_nil, hda, hdb]
  rw [show List.range ([pa, pb] : List Particle).length = [0, 1] from rfl]
  rw [List.foldl_cons, List.foldl_cons, List.foldl_nil]
  have hc0 : ∀ j, j < ([pa, pb] : List Particle).length → j ≠ 0 →
      contactForceOn kn pa (([pa, pb] : List Particle).getD j default) = 0 := by
    intro j hj hj0
    have hj1 : j = 1 := by
      have : j < 2 := hj
      omega
    subst hj1
    exact contactForceOn_far kn pa pb hfar
  rw [processParticle_free kn r dt [pa, pb] 0 pa rfl hma hba hc0]
  rw [show kickAll dt [pa, pb] = [kick dt pa, kick dt pb] from by
    unfold kickAll
    rw [List.map_cons, List.map_cons, List.map_nil]]
  have hc1 : ∀ j, j < ([kick dt pa, kick dt pb] : List Particle).length → j ≠ 1 →
      contactForceOn kn (kick dt pb)
        (([kick dt pa, kick dt pb] : List Particle).getD j default) = 0 := by
    intro j hj hj1
    have hj0 : j = 0 := by
      have : j < 2 := hj
      omega
    subst hj0
    exact contactForceOn_far kn (kick dt pb) (kick dt pa) hfar2
  rw [processParticle_free kn r dt [kick dt pa, kick dt pb] 1 (kick dt pb) rfl
    hmb hbb hc1]
  unfold kickAll
  rw [List.map_cons, List.map_cons, List.map_nil]

/-- C1 (code bug): in the source the velocity/angular-velocity kick loop over
all particles is nested inside the per-particle force loop, so it runs once
per movable owner instead of once per sub-step after all force accumulation.
Failing input: two movable bond-free particles of radius `0.02` at distance
`1` (no contacts, no bonds, gravity the only force), with `dt = 1`.  The
code gives particle 0 the mid-velocity `(0, −19.6)` — gravity applied twice
in one sub-step — whereas the claimed once-per-sub-step kick after the force
barrier would give `(0, −9.8·dt) = (0, −9.8)`. -/
theorem c1_kick_not_barriered :
    ((subStep 1e7 0.02 1 [Particle.new 1 1 0.02 (0, 0),
        Particle.new 1 1 0.02 (1, 0)]).getD 0 default).velocity_mid
      = ((0 : ℝ), (-19.6 : ℝ)) ∧
    ((subStep 1e7 0.02 1 [Particle.new 1 1 0.02 (0, 0),
        Particle.new 1 1 0.02 (1, 0)]).getD 0 default).velocity_mid
      ≠ ((0 : ℝ), (-9.8 : ℝ)) := by
  have hlen : vlen (((0 : ℝ), (0 : ℝ)) - ((1 : ℝ), (0 : ℝ)) : Vec2) = 1 := by
    rw [show (((0 : ℝ), (0 : ℝ)) - ((1 : ℝ), (0 : ℝ)) : Vec2) = ((-1 : ℝ), (0 : ℝ)) from by
      rw [Prod.mk_sub_mk]
      norm_num]
    unfold vlen
    rw [show ((-1 : ℝ), (0 : ℝ)).1 ^ 2 + ((-1 : ℝ), (0 : ℝ)).2 ^ 2 = 1 from by norm_num,
      Real.sqrt_one]
  have hlen2 : vlen (((1 : ℝ), (0 : ℝ)) - ((0 : ℝ), (0 : ℝ)) : Vec2) = 1 := by
    rw [show (((1 : ℝ), (0 : ℝ)) - ((0 : ℝ), (0 : ℝ)) : Vec2) = ((1 : ℝ), (0 : ℝ)) from by
      rw [Prod.mk_sub_mk]
      norm_num]
    unfold vlen
    rw [show ((1 : ℝ), (0 : ℝ)).1 ^ 2 + ((1 : ℝ), (0 : ℝ)).2 ^ 2 = 1 from by norm_num,
      Real.sqrt_one]
  have hfar : (Particle.new 1 1 0.02 (0, 0)).radius + (Particle.new 1 1 0.02 (1, 0)).radius
      - vlen ((Particle.new 1 1 0.02 (0, 0)).position
        - (Particle.new 1 1 0.02 (1, 0)).position) < 1e-12 := by
    show (0.02 : ℝ) + 0.02 - vlen (((0 : ℝ), (0 : ℝ)) - ((1 : ℝ), (0 : ℝ))) < 1e-12
    rw [hlen]
    norm_num
  have hfar2 : (Particle.new 1 1 0.02 (1, 0)).radius + (Particle.new 1 1 0.02 (0, 0)).radius
      - vlen ((Particle.new 1 1 0.02 (1, 0)).position
        - (Particle.new 1 1 0.02 (0, 0)).position) < 1e-12 := by
    show (0.02 : ℝ) + 0.02 - vlen (((1 : ℝ), (0 : ℝ)) - ((0 : ℝ), (0 : ℝ))) < 1e-12
    rw [hlen2]
    norm_num
  have hkey := subStep_two_free 1e7 0.02 1 (Particle.new 1 1 0.02 (0, 0))
    (Particle.new 1 1 0.02 (1, 0))
    (by show (1e-6 : ℝ) < 1; norm_num) (by show (1e-6 : ℝ) < 1; norm_num)
    rfl rfl (drift_new 1 1 1 0.02 (0, 0)) (drift_new 1 1 1 0.02 (1, 0)) hfar hfar2
  rw [hkey]
  have hg : (([kick 1 (kick 1 (Particle.new 1 1 0.02 (0, 0))),
      kick 1 (kick 1 (Particle.new 1 1 0.02 (1, 0)))] : List Particle).getD 0 default)
      = kick 1 (kick 1 (Particle.new 1 1 0.02 (0, 0))) := rfl
  rw [hg]
  have hvm : ∀ p : Particle, p.force = 0 → (1e-6 : ℝ) < p.inverse_mass →
      (kick 1 p).velocity_mid = p.velocity_mid + ((0 : ℝ), (-9.8 : ℝ)) := by
    intro p hf hm
    show p.velocity_mid + (1 : ℝ) • (p.inverse_mass • p.force +
      (if p.inverse_mass > 1e-6 then ((0 : ℝ), (-9.8 : ℝ)) else 0)) = _
    rw [hf, smul_zero, zero_add, if_pos hm, one_smul]
  have hstep : (kick 1 (kick 1 (Particle.new 1 1 0.02 (0, 0)))).velocity_mid
      = ((0 : ℝ), (-19.6 : ℝ)) := by
    rw [hvm _ rfl (by show (1e-6 : ℝ) < 1; norm_num),
      hvm _ rfl (by show (1e-6 : ℝ) < 1; norm_num)]
    show ((0 : ℝ), (0 : ℝ)) + ((0 : ℝ), (-9.8 : ℝ)) + ((0 : ℝ), (-9.8 : ℝ))
      = ((0 : ℝ), (-19.6 : ℝ))
    rw [Prod.mk_add_mk, Prod.mk_add_mk]
    norm_num
  refine ⟨hstep, ?_⟩
  rw [hstep]
  intro hcontra
  have h2 := congrArg Prod.snd hcontra
  norm_num at h2

theorem drift_frozen (dt : ℝ) {x0 : Vec2} {a0 : ℝ} {p : Particle}
    (ha : a0 ∈ Set.Ico (-Real.pi) Real.pi) (h : FrozenAt x0 a0 p) :
    FrozenAt x0 a0 (driftParticle dt p) := by
  obtain ⟨h1, h2, h3, h4, h5, h6, h7, h8⟩ := h
  refine ⟨h1, h2, h3, h4, h5, h6, ?_, ?_⟩
  · show p.position + dt • p.velocity_mid = x0
    rw [h4, smul_zero, add_zero, h7]
  · show clamp_angle (p.angle + p.angvel_mid * dt) = a0
    rw [h6, zero_mul, add_zero, h8, clamp_angle_eq_self ha]

theorem kick_frozen (dt : ℝ) {x0 : Vec2} {a0 : ℝ} {p : Particle}
    (h : FrozenAt x0 a0 p) : FrozenAt x0 a0 (kick dt p) := by
  obtain ⟨h1, h2, h3, h4, h5, h6, h7, h8⟩ := h
  have hacc : (p.inverse_mass • p.force +
      (if p.inverse_mass > 1e-6 then ((0 : ℝ), (-9.8 : ℝ)) else 0) : Vec2) = 0 := by
    rw [h1, zero_smul, zero_add, if_neg (by norm_num)]
  refine ⟨h1, h2, ?_, ?_, ?_, ?_, h7, h8⟩
  · show p.velocity_mid + (0.5 * dt) • (p.inverse_mass • p.force +
      (if p.inverse_mass > 1e-6 then ((0 : ℝ), (-9.8 : ℝ)) else 0)) = 0
    rw [hacc, smul_zero, add_zero, h4]
  · show p.velocity_mid + dt • (p.inverse_mass • p.force +
      (if p.inverse_mass > 1e-6 then ((0 : ℝ), (-9.8 : ℝ)) else 0)) = 0
    rw [hacc, smul_zero, add_zero, h4]
  · show p.angvel_mid + p.torque * p.inverse_moment * 0.5 * dt = 0
    rw [h2, mul_zero, zero_mul, zero_mul, h6, add_zero]
  · show p.angvel_mid + p.torque * p.inverse_moment * dt = 0
    rw [h2, mul_zero, zero_mul, h6, add_zero]

theorem processParticle_frozen (kn r dt : ℝ) (pts : List Particle) (m i : ℕ)
    {x0 : Vec2} {a0 : ℝ} (h : FrozenAt x0 a0 (pts.getD i default)) :
    FrozenAt x0 a0 ((processParticle kn r dt pts m).getD i default) := by
  unfold processParticle
  split_ifs with hmov
  · exact h
  · have him : i ≠ m := by
      intro he
      exact hmov (by rw [← he, h.1]; norm_num)
    rw [List.getD_eq_getElem?_getD, kickAll_getElem,
      bondStep_getElem_ne kn r (contactStep kn pts m) m i him,
      contactStep_getElem_ne kn pts m i him]
    cases hp : pts[i]? with
    | none =>
      have hdd : pts.getD i default = default := by
        rw [List.getD_eq_getElem?_getD, hp]
        rfl
      exact hdd ▸ h
    | some q =>
      show FrozenAt x0 a0 (kick dt q)
      have hq : pts.getD i default = q := by
        rw [List.getD_eq_getElem?_getD, hp]
        rfl
      exact kick_frozen dt (hq ▸ h)

theorem subStep_frozen (kn r dt : ℝ) (pts : List Particle) (i : ℕ) {x0 : Vec2}
    {a0 : ℝ} (ha : a0 ∈ Set.Ico (-Real.pi) Real.pi)
    (h : FrozenAt x0 a0 (pts.getD i default)) :
    FrozenAt x0 a0 ((subStep kn r dt pts).getD i default) := by
  unfold subStep
  have hd0 : FrozenAt x0 a0 ((pts.map (driftParticle dt)).getD i default) := by
    rw [List.getD_eq_getElem?_getD, List.getElem?_map]
    cases hp : pts[i]? with
    | none =>
      have hdd : pts.getD i default = default := by
        rw [List.getD_eq_getElem?_getD, hp]
        rfl
      exact hdd ▸ h
    | some p =>
      show FrozenAt x0 a0 (driftParticle dt p)
      have hq : pts.getD i default = p := by
        rw [List.getD_eq_getElem?_getD, hp]
        rfl
      exact drift_frozen dt ha (hq ▸ h)
  revert hd0
  generalize List.range (pts.map (driftParticle dt)).length = l
  generalize pts.map (driftParticle dt) = q
  induction l generalizing q with
  | nil => exact fun hd0 => hd0
  | cons m l ih =>
    intro hd0
    rw [List.foldl_cons]
    exact ih _ (processParticle_frozen kn r dt q m i hd0)

theorem iterate_frozen (kn r dt : ℝ) (pts : List Particle) (i n : ℕ) {x0 : Vec2}
    {a0 : ℝ} (ha : a0 ∈ Set.Ico (-Real.pi) Real.pi)
    (h : FrozenAt x0 a0 (pts.getD i default)) :
    FrozenAt x0 a0 ((((subStep kn r dt))^[n] pts).getD i default) := by
  induction n generalizing pts with
  | zero => exact h
  | succ n ih =>
    rw [Function.iterate_succ_apply]
    exact ih _ (subStep_frozen kn r dt pts i ha h)

/-- C6: a particle with zero inverse mass and zero inverse moment, in the
kinematic state the scene initializer gives immovable particles (zero
velocities and an in-range angle), keeps its position, velocity, angle and
angular velocity unchanged after any number of sub-steps, regardless of the
contact or bond forces other particles compute against it. -/
theorem c6_immovable_invariance (kn r dt : ℝ) (pts : List Particle) (i n : ℕ)
    (h1 : (pts.getD i default).inverse_mass = 0)
    (h2 : (pts.getD i default).inverse_moment = 0)
    (h3 : (pts.getD i default).velocity = 0)
    (h4 : (pts.getD i default).velocity_mid = 0)
    (h5 : (pts.getD i default).angvel = 0)
    (h6 : (pts.getD i default).angvel_mid = 0)
    (ha : (pts.getD i default).angle ∈ Set.Ico (-Real.pi) Real.pi) :
    (((subStep kn r dt)^[n] pts).getD i default).position
        = (pts.getD i default).position ∧
    (((subStep kn r dt)^[n] pts).getD i default).velocity
        = (pts.getD i default).velocity ∧
    (((subStep kn r dt)^[n] pts).getD i default).angle
        = (pts.getD i default).angle ∧
    (((subStep kn r dt)^[n] pts).getD i default).angvel
        = (pts.getD i default).angvel := by
  have hfr : FrozenAt (pts.getD i default).position (pts.getD i default).angle
      (pts.getD i default) := ⟨h1, h2, h3, h4, h5, h6, rfl, rfl⟩
  have hit := iterate_frozen kn r dt pts i n ha hfr
  obtain ⟨_, _, g3, _, g5, _, g7, g8⟩ := hit
  refine ⟨g7, ?_, g8, ?_⟩
  · rw [g3, h3]
  · rw [g5, h5]

/-- C6 witness: the immovable-invariance theorem applied to a one-particle
state holding a single immovable particle at position `(2, 3)`, for two
sub-steps. -/
theorem c6_immovable_invariance_witness :
    (([Particle.new 0 0 1 (2, 3)].getD 0 default).inverse_mass = 0 ∧
     ([Particle.new 0 0 1 (2, 3)].getD 0 default).inverse_moment = 0 ∧
     ([Particle.new 0 0 1 (2, 3)].getD 0 default).velocity = 0 ∧
     ([Particle.new 0 0 1 (2, 3)].getD 0 default).velocity_mid = 0 ∧
     ([Particle.new 0 0 1 (2, 3)].getD 0 default).angvel = 0 ∧
     ([Particle.new 0 0 1 (2, 3)].getD 0 default).angvel_mid = 0 ∧
     ([Particle.new 0 0 1 (2, 3)].getD 0 default).angle
        ∈ Set.Ico (-Real.pi) Real.pi) ∧
    ((((subStep 1e7 0.02 1)^[2] [Particle.new 0 0 1 (2, 3)]).getD 0 default).position
        = ([Particle.new 0 0 1 (2, 3)].getD 0 default).position ∧
     (((subStep 1e7 0.02 1)^[2] [Particle.new 0 0 1 (2, 3)]).getD 0 default).velocity
        = ([Particle.new 0 0 1 (2, 3)].getD 0 default).velocity ∧
     (((subStep 1e7 0.02 1)^[2] [Particle.new 0 0 1 (2, 3)]).getD 0 default).angle
        = ([Particle.new 0 0 1 (2, 3)].getD 0 default).angle ∧
     (((subStep 1e7 0.02 1)^[2] [Particle.new 0 0 1 (2, 3)]).getD 0 default).angvel
        = ([Particle.new 0 0 1 (2, 3)].getD 0 default).angvel) := by
  have hmem : ([Particle.new 0 0 1 (2, 3)].getD 0 default).angle
      ∈ Set.Ico (-Real.pi) Real.pi := by
    show (0 : ℝ) ∈ Set.Ico (-Real.pi) Real.pi
    exact ⟨by linarith [Real.pi_pos], Real.pi_pos⟩
  exact ⟨⟨rfl, rfl, rfl, rfl, rfl, rfl, hmem⟩,
    c6_immovable_invariance 1e7 0.02 1 [Particle.new 0 0 1 (2, 3)] 0 2
      rfl rfl rfl rfl rfl rfl hmem⟩

/-- C8: an owner with `inverse_mass ≤ 1e-6` is skipped entirely by the
per-particle pass; the contact pass writes only the owner's entry; and for
an in-range owner the force accumulator gains exactly the sum over all
`j ≠ i` of the claimed contribution: zero when the overlap is below
`1e-12`, and otherwise `n·(kn·overlap + a·dot(v_j − v_i, n))` with `n` the
unit vector from `j` to `i` and `a = 1.4·sqrt(kn/(invMass_i+invMass_j))`. -/
theorem c8_contact_pass (kn r dt : ℝ) (pts : List Particle) (i : ℕ) :
    ((pts.getD i default).inverse_mass ≤ 1e-6 → processParticle kn r dt pts i = pts) ∧
    (∀ j, j ≠ i → (contactStep kn pts i)[j]? = pts[j]?) ∧
    (i < pts.length →
      ((contactStep kn pts i).getD i default).force
        = (pts.getD i default).force
          + ∑ j in Finset.range pts.length,
              (if j = i then 0
               else
                 if (pts.getD i default).radius + (pts.getD j default).radius
                     - vlen ((pts.getD i default).position - (pts.getD j default).position)
                     < 1e-12 then 0
                 else
                   (kn * ((pts.getD i default).radius + (pts.getD j default).radius
                       - vlen ((pts.getD i default).position - (pts.getD j default).position))
                     + 1.4 * Real.sqrt (kn / ((pts.getD i default).inverse_mass
                         + (pts.getD j default).inverse_mass))
                       * vdot ((pts.getD j default).velocity - (pts.getD i default).velocity)
                           (vnormalize ((pts.getD i default).position
                             - (pts.getD j default).position))) •
                     vnormalize ((pts.getD i default).position
                       - (pts.getD j default).position))) := by
  refine ⟨?_, fun j hj => contactStep_getElem_ne kn pts i j hj, ?_⟩
  · intro h
    unfold processParticle
    rw [if_pos h]
  · intro hi
    have hp : pts[i]? = some pts[i] := List.getElem?_eq_getElem hi
    have hd : pts.getD i default = pts[i] := by
      rw [List.getD_eq_getElem?_getD, hp]
      rfl
    rw [contactStep_getD_owner kn pts i pts[i] hp, hd]
    show ((List.range pts.length).foldl
      (fun acc j => if j = i then acc
        else acc + contactForceOn kn pts[i] (pts.getD j default)) pts[i].force) = _
    rw [foldl_ite_add (fun j => contactForceOn kn pts[i] (pts.getD j default)) i
      pts[i].force pts.length]
    rfl

end
